import Mathlib

/-!
Verification of the card-review scheduler and active-session cache of the
cards-backend repository (src/main.rs, src/pages.rs, src/api.rs,
src/queries.rs).

Modelling conventions:
* `chrono::NaiveDateTime` values are modelled as `Int` millisecond
  timestamps; `Duration::num_milliseconds` of a difference is then the
  plain `Int` difference.
* Machine integers (`i32`, `i64`) are modelled as `Int`; in every
  computation reasoned about below the values provably stay far inside
  the machine range, so no wrap-around is modelled.
* `f32` values are modelled exactly: a value is either a NaN, an
  infinity, or an exact fraction `num / den`.  Rounding of inexact `f32`
  results is not modelled; every concrete input used below only
  exercises exactly representable intermediate values.  The cast
  `as i32` is the Rust saturating cast (NaN goes to 0).
* `sqlx` queries are modelled by passing their results (or the record
  store they read) as explicit inputs; a request handler that can panic
  (`unwrap`/`expect`/out-of-bounds indexing) returns a `panic` marker.
* `Vec::sort_by` is a stable sort; it is modelled by `List.insertionSort`
  with the corresponding total preorder, which is likewise stable, and a
  stable sort of a list by a total preorder is unique.
-/

namespace CardsBackend

/-- The `Card` row of the db model in src/main.rs. -/
structure Card where
  id : Int
  deck_id : Int
  related_card_ids : List Int
  from_text : String
  to_text_primary : String
  to_text_secondary : Option String
  example_text : Option String
  audio_url : Option String
  seen_at : Int
  seen_for : Option Int
  rating : Int
  prev_rating : Int
  created_at : Int
  updated_at : Int
deriving DecidableEq, Repr

/-- The `Deck` row of the db model in src/main.rs. -/
structure Deck where
  id : Int
  user_id : Int
  from_language : String
  to_language_primary : String
  to_language_secondary : Option String
  design_key : Option String
  seen_at : Int
  created_at : Int
  updated_at : Int
deriving DecidableEq, Repr

/-- The `User` row of the db model in src/main.rs. -/
structure User where
  id : Int
  name : String
  email : String
  created_at : Int
  updated_at : Int
deriving DecidableEq, Repr

/-! ### Exact model of the f32 fragment used by the scheduler

The scheduler computes `(current_age as f32 / span as f32 * 4f32).ceil() as i32`
(src/pages.rs lines 182-190).  Both operands of the division are casts of
integers, so an `F32` value is produced by dividing two integers and is
either NaN (0/0), an infinity (x/0 with x nonzero), or the exact fraction
of the two integers. -/

/-- An f32 value arising in the scheduler: NaN, an infinity, or an exact
fraction `num / den` with `den > 0`. -/
inductive F32 where
  | nan
  | inf
  | ninf
  | fin (num : Int) (den : Int)
deriving DecidableEq, Repr

/-- `a as f32 / b as f32` per IEEE 754: `0/0` is NaN, `x/0` with `x ≠ 0` is a
signed infinity, otherwise the exact quotient (the denominator is kept
positive). -/
def f32OfIntDiv (a b : Int) : F32 :=
  if b = 0 then
    if a = 0 then F32.nan
    else if 0 < a then F32.inf else F32.ninf
  else if 0 < b then F32.fin a b
  else F32.fin (-a) (-b)

/-- Multiplication by the literal `4f32` (exact: scaling by a power of two). -/
def f32Mul4 : F32 → F32
  | F32.nan => F32.nan
  | F32.inf => F32.inf
  | F32.ninf => F32.ninf
  | F32.fin n d => F32.fin (4 * n) d

/-- The integer ceiling of the fraction `n / d` (for `d > 0`), written with
`Int.fdiv` so that it evaluates by kernel reduction. -/
def ceilFrac (n d : Int) : Int :=
  -(Int.fdiv (-n) d)

/-- `f32::ceil` (exact on NaN, infinities and exact fractions). -/
def f32Ceil : F32 → F32
  | F32.fin n d => F32.fin (ceilFrac n d) 1
  | x => x

/-- Truncation of the fraction `n / d` (for `d > 0`) toward zero. -/
def truncFrac (n d : Int) : Int :=
  if 0 ≤ n then Int.fdiv n d else -(Int.fdiv (-n) d)

/-- The Rust cast `as i32` from f32: truncate toward zero, saturate at the
i32 range bounds, and map NaN to 0. -/
def f32ToI32 : F32 → Int
  | F32.nan => 0
  | F32.inf => 2147483647
  | F32.ninf => -2147483648
  | F32.fin n d => max (-2147483648) (min 2147483647 (truncFrac n d))

/-- The rule-4 recency weight of src/pages.rs lines 182-190:
`(current_age as f32 / span as f32 * 4f32).ceil() as i32`. -/
def weightByLastSeen (currentAge span : Int) : Int :=
  f32ToI32 (f32Ceil (f32Mul4 (f32OfIntDiv currentAge span)))

/-! ### The weights map

`HashMap<i32, i32>` restricted to the operations the scheduler uses:
`insert` (replacing any previous binding), `contains_key`, `len` and
`get`.  It is modelled as an association list in which each key occurs at
most once (insert replaces in place), so `len` is the number of distinct
keys, exactly as for the hash map. -/

/-- The weights map `HashMap<i32, i32>`. -/
abbrev Weights : Type := List (Int × Int)

/-- `HashMap::contains_key`. -/
def wContains (w : Weights) (k : Int) : Bool :=
  (List.any w fun p => p.1 = k)

/-- `HashMap::insert`: replace the binding of `k` if present, add it
otherwise. -/
def wInsert (w : Weights) (k v : Int) : Weights :=
  if wContains w k then List.map (fun p => if p.1 = k then (k, v) else p) w
  else w ++ [(k, v)]

/-- `HashMap::get`. -/
def wGet (w : Weights) (k : Int) : Option Int :=
  Option.map Prod.snd (List.find? (fun p => p.1 = k) w)

/-- `HashMap::len`. -/
def wLen (w : Weights) : Nat :=
  List.length w

/-! ### The two weighting loops of src/pages.rs -/

/-- Rule 1 of the scheduler: `rating == 4 && deck.seen_at < card.updated_at`
(src/pages.rs line 153). -/
def rule1 (deckSeenAt : Int) (c : Card) : Prop :=
  c.rating = 4 ∧ deckSeenAt < c.updated_at

instance (deckSeenAt : Int) (c : Card) : Decidable (rule1 deckSeenAt c) :=
  inferInstanceAs (Decidable (_ ∧ _))

/-- The first weighting loop (src/pages.rs lines 150-162): rule 1 weights
1,000,000 the cards rated 4 and updated after the deck was last seen, and
rule 2 weights 100,000 the unrated cards. -/
def applyRules12 (deckSeenAt : Int) : Weights → List Card → Weights
  | w, [] => w
  | w, c :: rest =>
      let w1 := if rule1 deckSeenAt c then wInsert w c.id 1000000 else w
      let w2 := if c.rating = 0 then wInsert w1 c.id 100000 else w1
      applyRules12 deckSeenAt w2 rest

/-- The second weighting loop (src/pages.rs lines 166-191): a card whose id
is already weighted is skipped; otherwise rule 3 inserts weight 100,000
while fewer than 9 ids are weighted, and then rule 4 unconditionally
inserts `rating + weight_by_last_seen`, replacing any rule-3 weight
inserted in the same iteration. -/
def applyRules34 (youngest span : Int) : Weights → List Card → Weights
  | w, [] => w
  | w, c :: rest =>
      if wContains w c.id then applyRules34 youngest span w rest
      else
        let w3 := if wLen w < 9 then wInsert w c.id 100000 else w
        let w4 := wInsert w3 c.id (c.rating + weightByLastSeen (youngest - c.updated_at) span)
        applyRules34 youngest span w4 rest

/-! ### The two stable sorts of src/pages.rs -/

/-- The comparator of `cards.sort_by(|a, b| b.updated_at.cmp(&a.updated_at))`
(src/pages.rs line 146) as a total preorder: `a` may precede `b` iff
`b.updated_at ≤ a.updated_at`. -/
def updGe (a b : Card) : Prop :=
  b.updated_at ≤ a.updated_at

instance : DecidableRel updGe := fun a b =>
  inferInstanceAs (Decidable (b.updated_at ≤ a.updated_at))

instance : IsTotal Card updGe :=
  ⟨fun a b => le_total b.updated_at a.updated_at⟩

instance : IsTrans Card updGe :=
  ⟨fun _ _ _ h1 h2 => le_trans h2 h1⟩

/-- `Option<i32>` ordering derived by Rust (`None` below every `Some`). -/
def optLe : Option Int → Option Int → Prop
  | none, _ => True
  | some _, none => False
  | some a, some b => a ≤ b

instance : DecidableRel optLe := fun a b =>
  match a, b with
  | none, _ => inferInstanceAs (Decidable True)
  | some _, none => inferInstanceAs (Decidable False)
  | some a, some b => inferInstanceAs (Decidable (a ≤ b))

/-- The comparator of
`cards.sort_by(|a, b| weights.get(&b.id).cmp(&weights.get(&a.id)))`
(src/pages.rs line 195) as a total preorder: `a` may precede `b` iff the
weight of `b` is at most the weight of `a`. -/
def weightGe (w : Weights) (a b : Card) : Prop :=
  optLe (wGet w b.id) (wGet w a.id)

instance (w : Weights) : DecidableRel (weightGe w) := fun a b =>
  inferInstanceAs (Decidable (optLe _ _))

theorem optLe_total : ∀ a b : Option Int, optLe a b ∨ optLe b a
  | none, _ => Or.inl trivial
  | some _, none => Or.inr trivial
  | some a, some b => (le_total a b).imp id id

theorem optLe_trans : ∀ {a b c : Option Int}, optLe a b → optLe b c → optLe a c
  | none, _, _, _, _ => trivial
  | some _, some _, some _, h1, h2 => le_trans h1 h2

instance (w : Weights) : IsTotal Card (weightGe w) :=
  ⟨fun a b => (optLe_total (wGet w b.id) (wGet w a.id)).imp id id⟩

instance (w : Weights) : IsTrans Card (weightGe w) :=
  ⟨fun _ _ _ h1 h2 => optLe_trans h2 h1⟩

/-! ### The scheduler (src/pages.rs lines 142-199)

This is the block the spec calls `computeOrder`.  `none` models the panic
of `cards[0]` / `cards[cards.len() - 1]` on an empty card list. -/

/-- The weights and the ordered card list the scheduling block computes,
or `none` when the block panics on an empty card list. -/
def scheduleParts (deckSeenAt : Int) (cards : List Card) : Option (Weights × List Card) :=
  let sorted := List.insertionSort updGe cards
  let w12 := applyRules12 deckSeenAt ([] : Weights) sorted
  match sorted with
  | [] => none
  | c0 :: rest =>
      let span := c0.updated_at - ((c0 :: rest).getLast (List.cons_ne_nil c0 rest)).updated_at
      let w := applyRules34 c0.updated_at span w12 (c0 :: rest)
      some (w, List.insertionSort (weightGe w) (c0 :: rest))

/-- The ordered working set the scheduling block stores in the cache. -/
def computeOrder (deckSeenAt : Int) (cards : List Card) : Option (List Card) :=
  Option.map Prod.snd (scheduleParts deckSeenAt cards)

/-- The final weight assignment of the scheduling block. -/
def finalWeights (deckSeenAt : Int) (cards : List Card) : Option Weights :=
  Option.map Prod.fst (scheduleParts deckSeenAt cards)

/-! ### The active-deck cache and the page-action handler (src/pages.rs)

Database reads are passed in as explicit `Result` values; `DbResult.err`
models a failed `sqlx` call.  A handler path that panics (an `unwrap` on
an empty row list, or the out-of-bounds `cards[0]` above) is returned as
the `panic` marker instead of a rendered page. -/

/-- `Result<T, sqlx::Error>`. -/
inductive DbResult (α : Type) where
  | ok (val : α)
  | err (msg : String)
deriving DecidableEq, Repr

/-- The `active_decks` map `HashMap<i32, Vec<Card>>` behind the RwLock. -/
abbrev Cache : Type := List (Int × List Card)

/-- `HashMap::get` on the active-deck cache. -/
def cacheGet (cache : Cache) (k : Int) : Option (List Card) :=
  Option.map Prod.snd (List.find? (fun p => p.1 = k) cache)

/-- `HashMap::insert` on the active-deck cache (replaces a prior entry). -/
def cacheInsert (cache : Cache) (k : Int) (v : List Card) : Cache :=
  if List.any cache (fun p => p.1 = k) then
    List.map (fun p => if p.1 = k then (k, v) else p) cache
  else cache ++ [(k, v)]

/-- The millisecond timestamp of 2016-07-08 09:10:11, the fixed date of the
placeholder rows in src/pages.rs. -/
def ts2016 : Int := 1467969011000

/-- The terminal sentinel card rendered at src/pages.rs lines 238-262. -/
def theEndCard : Card :=
  { id := 0, deck_id := 0, related_card_ids := [], from_text := "The End",
    to_text_primary := "The End", to_text_secondary := none,
    example_text := none, audio_url := none, seen_at := ts2016,
    seen_for := none, rating := 0, prev_rating := 0, created_at := ts2016,
    updated_at := ts2016 }

/-- The fields of the rendered `ActionTemplate`. -/
structure ActionTemplateData where
  card : Card
  num_cards : Int
  deck_id : Int
  index : Nat
  side : String
  random : String
  uuid : String
deriving DecidableEq, Repr

/-- The sentinel `ActionTemplate` built at src/pages.rs lines 237-269. -/
def endTemplate (deck_id : Int) (appUuid : String) : ActionTemplateData :=
  { card := theEndCard, num_cards := 0, deck_id := deck_id, index := 0,
    side := "from", random := "from", uuid := appUuid }

/-- What a call of `page_action` produces: a rendered page together with the
state of the active-deck cache afterwards, or a panic. -/
inductive HandlerOutcome where
  | panic
  | page (resp : ActionTemplateData) (cache : Cache)
deriving DecidableEq, Repr

/-- The session-start block of `page_action` (src/pages.rs lines 128-201):
on `Ok` cards and `Ok` decks it unwraps the first deck row (panicking when
the row list is empty), runs the scheduling block (panicking on an empty
card list) and replaces the cache entry; on a failed read it leaves the
cache untouched. -/
def sessionStart (deckResult : DbResult (List Deck)) (cardsResult : DbResult (List Card))
    (cache0 : Cache) (deck_id : Int) : Option Cache :=
  match cardsResult with
  | DbResult.err _ => some cache0
  | DbResult.ok cards =>
      match deckResult with
      | DbResult.err _ => some cache0
      | DbResult.ok decks =>
          match decks.head? with
          | none => none
          | some deck =>
              match computeOrder deck.seen_at cards with
              | none => none
              | some ordered => some (cacheInsert cache0 deck_id ordered)

/-- The map from the random draw `gen_range(0..=2)` to the displayed side
(src/pages.rs lines 206-212). -/
def randToSide (randomNumber : Nat) : String :=
  if 0 < randomNumber then "from" else "to"

/-- The `page_action` handler (src/pages.rs lines 123-272).  The store reads
of the session-start branch are passed in as `deckResult`/`cardsResult`;
`randomNumber` is the draw of `thread_rng().gen_range(0..=2)`. -/
def page_action (appUuid : String) (deckResult : DbResult (List Deck))
    (cardsResult : DbResult (List Card)) (cache0 : Cache) (deck_id : Int)
    (pos : Nat) (side : String) (randomNumber : Nat) : HandlerOutcome :=
  let step : Option Cache :=
    if pos = 0 ∧ side = "from" then sessionStart deckResult cardsResult cache0 deck_id
    else some cache0
  match step with
  | none => HandlerOutcome.panic
  | some cache =>
      match cacheGet cache deck_id with
      | some deck =>
          match deck[pos]? with
          | some card =>
              HandlerOutcome.page
                { card := card, num_cards := (deck.length : Int),
                  deck_id := deck_id, index := pos, side := side,
                  random := randToSide randomNumber, uuid := appUuid } cache
          | none => HandlerOutcome.page (endTemplate deck_id appUuid) cache
      | none => HandlerOutcome.page (endTemplate deck_id appUuid) cache

/-- A `page_action` request as received over HTTP: it may carry a `uuid`
query credential, but the handler declares no query extractor
(src/pages.rs lines 123-126), so the credential is never read. -/
def page_action_request (requestUuid : Option String) (appUuid : String)
    (deckResult : DbResult (List Deck)) (cardsResult : DbResult (List Card))
    (cache0 : Cache) (deck_id : Int) (pos : Nat) (side : String)
    (randomNumber : Nat) : HandlerOutcome :=
  page_action appUuid deckResult cardsResult cache0 deck_id pos side randomNumber

/-- The JSON body `ApiResponse` of src/api.rs. -/
structure ApiResponse (α : Type) where
  data : Option α
  error : Option String
deriving DecidableEq, Repr

/-- `db_result_to_json_response` of src/api.rs lines 31-46. -/
def db_result_to_json_response {α : Type} : DbResult α → ApiResponse α
  | DbResult.ok a => { data := some a, error := none }
  | DbResult.err msg => { data := none, error := some msg }

/-- What a JSON API handler returns: 401, or a JSON body. -/
inductive ApiOutcome (α : Type) where
  | unauthorized
  | ok (resp : ApiResponse α)
deriving DecidableEq, Repr

/-- The `get_users` handler (src/api.rs lines 50-62): reject with 401 when
the configured user is absent, the `uuid` query parameter is missing, or
it differs from the configured uuid; only then run the store query. -/
def get_users (appUser : Option User) (appUuid : String) (uuid : Option String)
    (dbResult : DbResult (List User)) : ApiOutcome (List User) :=
  if appUser = none ∨ uuid = none ∨ uuid ≠ some appUuid then
    ApiOutcome.unauthorized
  else ApiOutcome.ok (db_result_to_json_response dbResult)

/-! ### The record store, for the ordering of reads and writes at session
start (src/pages.rs lines 100-140) -/

/-- The slice of the record store a session start touches: the deck row
matched by `WHERE id = deck_id AND user_id = user_id` (if any) and the
card rows of the deck. -/
structure Store where
  deckRow : Option Deck
  cards : List Card
deriving DecidableEq, Repr

/-- `read_deck` (src/queries.rs lines 120-133): the matching rows. -/
def readDeckOp (st : Store) : DbResult (List Deck) :=
  DbResult.ok st.deckRow.toList

/-- `update_deck_query` with `seen_at: Some(now)` and all other form fields
`None` (src/pages.rs lines 105-118): persist `seen_at = now` on the row. -/
def updateSeenAtOp (st : Store) (now : Int) : Store :=
  { st with deckRow := Option.map (fun d => { d with seen_at := now }) st.deckRow }

/-- `read_cards_query` (src/queries.rs lines 263-267). -/
def readCardsOp (st : Store) : DbResult (List Card) :=
  DbResult.ok st.cards

/-- The session-start sequence of `page_action` run against a live store,
in source order: (1) `read_deck`, (2) persist `seen_at = now`, (3) read the
cards, (4) schedule and store (src/pages.rs lines 128-201).  Returns the
cache action together with the store afterwards. -/
def sessionStartLive (st : Store) (now : Int) (cache0 : Cache) (deck_id : Int) :
    Option Cache × Store :=
  let deckResult := readDeckOp st
  let st1 := updateSeenAtOp st now
  let cardsResult := readCardsOp st1
  (sessionStart deckResult cardsResult cache0 deck_id, st1)

/-- A concrete card with the fields the scheduler reads; the content fields
are fixed opaque values. -/
def mkCard (i r u : Int) : Card :=
  { id := i, deck_id := 1, related_card_ids := [], from_text := "a",
    to_text_primary := "b", to_text_secondary := none, example_text := none,
    audio_url := none, seen_at := 0, seen_for := none, rating := r,
    prev_rating := 0, created_at := 0, updated_at := u }

/-- A concrete deck row with a given `seen_at`. -/
def mkDeck (i s : Int) : Deck :=
  { id := i, user_id := 1, from_language := "de", to_language_primary := "en",
    to_language_secondary := none, design_key := none, seen_at := s,
    created_at := 0, updated_at := 0 }

/-! ## Helper lemmas: behavior of the weights map -/

theorem wGet_nil (k : Int) : wGet ([] : Weights) k = none := rfl

theorem wContains_false_elem (w : Weights) (k : Int) (hc : wContains w k = false) :
    ∀ p ∈ w, p.1 ≠ k := by
  intro p hp
  simp only [wContains, List.any_eq_false, decide_eq_true_eq] at hc
  exact hc p hp

theorem wGet_eq_none_of_not_contains (w : Weights) (k : Int)
    (hc : wContains w k = false) : wGet w k = none := by
  have hfind : List.find? (fun p => decide (p.1 = k)) w = none := by
    rw [List.find?_eq_none]
    intro p hp
    simpa using wContains_false_elem w k hc p hp
  simp [wGet, hfind]

theorem wGet_isSome_of_contains (w : Weights) (k : Int)
    (hc : wContains w k = true) : (wGet w k).isSome = true := by
  simp only [wContains, List.any_eq_true, decide_eq_true_eq] at hc
  obtain ⟨p, hp, hpk⟩ := hc
  have hfind : (List.find? (fun p => decide (p.1 = k)) w).isSome = true := by
    rw [List.find?_isSome]
    exact ⟨p, hp, by simpa using hpk⟩
  simpa [wGet] using hfind

theorem wGet_map_replace_self (w : Weights) (k v : Int)
    (hc : wContains w k = true) :
    wGet (List.map (fun p => if p.1 = k then (k, v) else p) w) k = some v := by
  induction w with
  | nil => simp [wContains] at hc
  | cons p t ih =>
      by_cases hp : p.1 = k
      · simp [wGet, List.find?, hp]
      · have hc' : wContains t k = true := by
          simpa [wContains, List.any_cons, hp] using hc
        simpa [wGet, List.find?, hp] using ih hc'

theorem wGet_map_replace_ne (w : Weights) (k v k' : Int) (hk : k' ≠ k) :
    wGet (List.map (fun p => if p.1 = k then (k, v) else p) w) k' = wGet w k' := by
  have hkk : ¬(k = k') := fun h => hk (Eq.symm h)
  induction w with
  | nil => rfl
  | cons p t ih =>
      by_cases hp : p.1 = k
      · have hp' : ¬(p.1 = k') := by rw [hp]; exact hkk
        simpa [wGet, List.find?, hp, hp', hkk] using ih
      · by_cases hq : p.1 = k'
        · simp [wGet, List.find?, hp, hq, hk]
        · simpa [wGet, List.find?, hp, hq] using ih

theorem wGet_append_single_self (w : Weights) (k v : Int)
    (hc : wContains w k = false) :
    wGet (w ++ [(k, v)]) k = some v := by
  induction w with
  | nil => simp [wGet, List.find?]
  | cons p t ih =>
      have hp : p.1 ≠ k := wContains_false_elem _ _ hc p (List.mem_cons_self p t)
      have hc' : wContains t k = false := by
        simp only [wContains, List.any_eq_false, decide_eq_true_eq] at hc ⊢
        exact fun q hq => hc q (List.mem_cons_of_mem p hq)
      simpa [wGet, List.find?, hp] using ih hc'

theorem wGet_append_single_ne (w : Weights) (k v k' : Int) (hk : k' ≠ k) :
    wGet (w ++ [(k, v)]) k' = wGet w k' := by
  have hkk : ¬(k = k') := fun h => hk (Eq.symm h)
  induction w with
  | nil => simp [wGet, List.find?, hkk]
  | cons p t ih =>
      by_cases hp : p.1 = k'
      · simp [wGet, List.find?, hp]
      · simpa [wGet, List.find?, hp] using ih

/-- The lookup-after-insert law for the weights map. -/
theorem wGet_wInsert (w : Weights) (k v k' : Int) :
    wGet (wInsert w k v) k' = if k' = k then some v else wGet w k' := by
  by_cases hk : k' = k
  · subst hk
    by_cases hc : wContains w k'
    · simp [wInsert, hc, wGet_map_replace_self w k' v hc]
    · simp only [Bool.not_eq_true] at hc
      simp [wInsert, hc, wGet_append_single_self w k' v hc]
  · by_cases hc : wContains w k
    · simp [wInsert, hc, wGet_map_replace_ne w k v k' hk, hk]
    · simp only [Bool.not_eq_true] at hc
      simp [wInsert, hc, wGet_append_single_ne w k v k' hk, hk]

theorem wContains_iff_isSome (w : Weights) (k : Int) :
    wContains w k = true ↔ (wGet w k).isSome = true := by
  constructor
  · exact wGet_isSome_of_contains w k
  · intro h
    by_cases hc : wContains w k
    · exact hc
    · simp only [Bool.not_eq_true] at hc
      rw [wGet_eq_none_of_not_contains w k hc] at h
      simp at h

/-! ## Helper lemmas: the two weighting loops -/

theorem applyRules12_append (s : Int) (w : Weights) (l1 l2 : List Card) :
    applyRules12 s w (l1 ++ l2) = applyRules12 s (applyRules12 s w l1) l2 := by
  induction l1 generalizing w with
  | nil => rfl
  | cons c t ih => simp only [List.cons_append, applyRules12]; exact ih _

theorem applyRules34_append (y sp : Int) (w : Weights) (l1 l2 : List Card) :
    applyRules34 y sp w (l1 ++ l2) = applyRules34 y sp (applyRules34 y sp w l1) l2 := by
  induction l1 generalizing w with
  | nil => rfl
  | cons c t ih =>
      by_cases hc : wContains w c.id
      · simp only [List.cons_append, applyRules34]
        rw [if_pos hc, if_pos hc]
        exact ih _
      · simp only [List.cons_append, applyRules34]
        rw [if_neg hc, if_neg hc]
        exact ih _

theorem applyRules12_get_of_ne (s : Int) (l : List Card) (w : Weights) (k : Int)
    (h : ∀ c ∈ l, c.id ≠ k) : wGet (applyRules12 s w l) k = wGet w k := by
  induction l generalizing w with
  | nil => rfl
  | cons c t ih =>
      have hc : c.id ≠ k := h c (List.mem_cons_self c t)
      have hkc : ¬(k = c.id) := fun he => hc (Eq.symm he)
      have ht : ∀ d ∈ t, d.id ≠ k := fun d hd => h d (List.mem_cons_of_mem c hd)
      simp only [applyRules12]
      rw [ih _ ht]
      by_cases h1 : rule1 s c <;> by_cases h2 : c.rating = 0 <;>
        simp [h1, h2, wGet_wInsert, hkc]

theorem applyRules12_get_none (s : Int) (l : List Card) (w : Weights) (k : Int)
    (h0 : wGet w k = none)
    (h : ∀ c ∈ l, c.id = k → ¬rule1 s c ∧ c.rating ≠ 0) :
    wGet (applyRules12 s w l) k = none := by
  induction l generalizing w with
  | nil => exact h0
  | cons c t ih =>
      simp only [applyRules12]
      by_cases hck : c.id = k
      · obtain ⟨h1, h2⟩ := h c (List.mem_cons_self c t) hck
        apply ih
        · simpa [h1, h2] using h0
        · exact fun d hd => h d (List.mem_cons_of_mem c hd)
      · have hkc : ¬(k = c.id) := fun he => hck (Eq.symm he)
        apply ih
        · by_cases h1 : rule1 s c <;> by_cases h2 : c.rating = 0 <;>
            simp [h1, h2, wGet_wInsert, hkc, h0]
        · exact fun d hd => h d (List.mem_cons_of_mem c hd)

theorem applyRules34_get_of_ne (y sp : Int) (l : List Card) (w : Weights) (k : Int)
    (h : ∀ c ∈ l, c.id ≠ k) : wGet (applyRules34 y sp w l) k = wGet w k := by
  induction l generalizing w with
  | nil => rfl
  | cons c t ih =>
      have hc : c.id ≠ k := h c (List.mem_cons_self c t)
      have hkc : ¬(k = c.id) := fun he => hc (Eq.symm he)
      have ht : ∀ d ∈ t, d.id ≠ k := fun d hd => h d (List.mem_cons_of_mem c hd)
      by_cases hw : wContains w c.id
      · simp only [applyRules34]
        rw [if_pos hw]
        exact ih _ ht
      · simp only [applyRules34]
        rw [if_neg hw]
        have hval : wGet (wInsert (if wLen w < 9 then wInsert w c.id 100000 else w) c.id
            (c.rating + weightByLastSeen (y - c.updated_at) sp)) k = wGet w k := by
          by_cases h9 : wLen w < 9 <;> simp [h9, wGet_wInsert, hkc]
        rw [ih _ ht, hval]

theorem applyRules34_get_of_isSome (y sp : Int) (l : List Card) (w : Weights) (k : Int)
    (h : (wGet w k).isSome = true) : wGet (applyRules34 y sp w l) k = wGet w k := by
  induction l generalizing w with
  | nil => rfl
  | cons c t ih =>
      by_cases hw : wContains w c.id
      · simp only [applyRules34]
        rw [if_pos hw]
        exact ih _ h
      · have hck : ¬(k = c.id) := by
          intro he
          rw [← he] at hw
          rw [wContains_iff_isSome] at hw
          exact hw h
        simp only [applyRules34]
        rw [if_neg hw]
        have hval : wGet (wInsert (if wLen w < 9 then wInsert w c.id 100000 else w) c.id
            (c.rating + weightByLastSeen (y - c.updated_at) sp)) k = wGet w k := by
          by_cases h9 : wLen w < 9 <;> simp [h9, wGet_wInsert, hck]
        rw [ih _ (by rw [hval]; exact h), hval]

/-! ## Helper lemmas: bounds on the rule-4 recency weight -/

theorem ceilFrac_nonneg (n d : Int) (hn : 0 ≤ n) (hd : 0 < d) : 0 ≤ ceilFrac n d := by
  unfold ceilFrac
  rw [Int.fdiv_eq_ediv _ (le_of_lt hd)]
  have h1 : (-n) / d ≤ 0 / d := Int.ediv_le_ediv hd (by omega)
  rw [Int.zero_ediv] at h1
  omega

theorem ceilFrac_le (n d m : Int) (hd : 0 < d) (h : n ≤ m * d) : ceilFrac n d ≤ m := by
  unfold ceilFrac
  rw [Int.fdiv_eq_ediv _ (le_of_lt hd)]
  have h1 : (-(m * d)) / d ≤ (-n) / d := Int.ediv_le_ediv hd (by omega)
  have h2 : (-(m * d)) / d = -m := by
    rw [show -(m * d) = (-m) * d by ring]
    exact Int.mul_ediv_cancel _ (ne_of_gt hd)
  omega

/-- With `0 ≤ currentAge ≤ span` (as for every card of the sorted deck) the
rule-4 recency weight lies in `[0, 4]`; in particular for `span = 0` the
whole pipeline passes through NaN and the Rust cast maps it to `0`. -/
theorem weightByLastSeen_bounds (a sp : Int) (h0 : 0 ≤ a) (h1 : a ≤ sp) :
    0 ≤ weightByLastSeen a sp ∧ weightByLastSeen a sp ≤ 4 := by
  by_cases hsp : sp = 0
  · have ha : a = 0 := le_antisymm (hsp ▸ h1) h0
    subst hsp
    subst ha
    decide
  · have hsp' : 0 < sp := lt_of_le_of_ne (le_trans h0 h1) (Ne.symm hsp)
    have hc0 : 0 ≤ ceilFrac (4 * a) sp := ceilFrac_nonneg _ _ (by omega) hsp'
    have hc4 : ceilFrac (4 * a) sp ≤ 4 := ceilFrac_le _ _ 4 hsp' (by omega)
    unfold weightByLastSeen f32OfIntDiv
    rw [if_neg hsp, if_pos hsp']
    simp only [f32Mul4, f32Ceil, f32ToI32]
    have ht : truncFrac (ceilFrac (4 * a) sp) 1 = ceilFrac (4 * a) sp := by
      unfold truncFrac
      rw [if_pos hc0, Int.fdiv_eq_ediv _ (by omega), Int.ediv_one]
    rw [ht]
    omega

/-! ## Helper lemmas: the sorted deck and the scheduling block -/

theorem sorted_head_max (c0 : Card) (rest : List Card)
    (hs : List.Sorted updGe (c0 :: rest)) :
    ∀ d ∈ c0 :: rest, d.updated_at ≤ c0.updated_at := by
  intro d hd
  rcases List.mem_cons.1 hd with h | h
  · exact le_of_eq (by rw [h])
  · exact List.rel_of_sorted_cons hs d h

theorem sorted_getLast_min : ∀ (l : List Card) (hne : l ≠ []),
    List.Sorted updGe l → ∀ d ∈ l, (l.getLast hne).updated_at ≤ d.updated_at
  | [], hne, _, _, _ => absurd rfl hne
  | [c0], _, _, d, hd => by
      rw [List.mem_singleton.1 hd]
      exact le_refl _
  | c0 :: c1 :: t, hne, hs, d, hd => by
      have hlast : (c0 :: c1 :: t).getLast hne =
          (c1 :: t).getLast (List.cons_ne_nil c1 t) := List.getLast_cons _
      rw [hlast]
      rcases List.mem_cons.1 hd with he | hd'
      · have hmem : (c1 :: t).getLast (List.cons_ne_nil c1 t) ∈ c1 :: t :=
          List.getLast_mem _
        rw [he]
        exact List.rel_of_sorted_cons hs _ hmem
      · exact sorted_getLast_min (c1 :: t) (List.cons_ne_nil c1 t) hs.of_cons d hd'

theorem ids_ne_of_nodup_split (l1 l2 : List Card) (c : Card)
    (h : (List.map Card.id (l1 ++ c :: l2)).Nodup) :
    (∀ d ∈ l1, d.id ≠ c.id) ∧ (∀ d ∈ l2, d.id ≠ c.id) := by
  rw [List.map_append, List.map_cons, List.nodup_append] at h
  obtain ⟨h1, h2, hdisj⟩ := h
  constructor
  · intro d hd he
    have hmem : d.id ∈ List.map Card.id l1 := List.mem_map_of_mem _ hd
    exact hdisj hmem (by simp [he])
  · intro d hd he
    have hc : c.id ∉ List.map Card.id l2 := (List.nodup_cons.1 h2).1
    exact hc (he ▸ List.mem_map_of_mem _ hd)

theorem scheduleParts_some (s : Int) (cards : List Card) (pr : Weights × List Card)
    (h : scheduleParts s cards = some pr) :
    ∃ (c0 : Card) (rest : List Card),
      List.insertionSort updGe cards = c0 :: rest ∧
      pr.1 = applyRules34 c0.updated_at
          (c0.updated_at - ((c0 :: rest).getLast (List.cons_ne_nil c0 rest)).updated_at)
          (applyRules12 s ([] : Weights) (c0 :: rest)) (c0 :: rest) ∧
      pr.2 = List.insertionSort (weightGe pr.1) (c0 :: rest) := by
  simp only [scheduleParts] at h
  cases hs : List.insertionSort updGe cards with
  | nil =>
      rw [hs] at h
      exact absurd h (by simp)
  | cons c0 rest =>
      rw [hs] at h
      cases h
      exact ⟨c0, rest, rfl, rfl, rfl⟩

/-- The final weight of a card hit by rule 1: ids being unique, neither the
rest of the first loop nor the second loop replaces it. -/
theorem finalWeights_rule1_val (s : Int) (cards : List Card) (w : Weights)
    (hnd : (List.map Card.id cards).Nodup)
    (hw : finalWeights s cards = some w)
    (c : Card) (hc : c ∈ cards) (h1 : rule1 s c) :
    wGet w c.id = some 1000000 := by
  obtain ⟨pr, hpr, hfst⟩ := Option.map_eq_some'.1 hw
  obtain ⟨c0, rest, hsort, hw1, _⟩ := scheduleParts_some s cards pr hpr
  have hperm : (c0 :: rest).Perm cards := hsort ▸ List.perm_insertionSort updGe cards
  have hcs : c ∈ c0 :: rest := hperm.mem_iff.2 hc
  have hnd2 : (List.map Card.id (c0 :: rest)).Nodup :=
    (hperm.map Card.id).nodup_iff.2 hnd
  obtain ⟨l1, l2, hsplit⟩ := List.append_of_mem hcs
  have hids := ids_ne_of_nodup_split l1 l2 c (by rw [← hsplit]; exact hnd2)
  have h1' : c.rating = 4 ∧ s < c.updated_at := h1
  have h12 : wGet (applyRules12 s ([] : Weights) (c0 :: rest)) c.id = some 1000000 := by
    rw [hsplit, applyRules12_append]
    simp only [applyRules12]
    rw [applyRules12_get_of_ne s l2 _ c.id hids.2]
    have hr4 : c.rating ≠ 0 := by rw [h1'.1]; omega
    simp [h1, hr4, wGet_wInsert]
  have hsome : (wGet (applyRules12 s ([] : Weights) (c0 :: rest)) c.id).isSome = true := by
    rw [h12]; rfl
  rw [← hfst, hw1, applyRules34_get_of_isSome _ _ _ _ _ hsome, h12]

/-- The final weight of a card hit by neither rule 1 nor rule 2: with unique
ids it reaches the second loop unweighted and receives the rule-4 weight
(overwriting any rule-3 weight inserted in the same iteration).  The two
witnessing cards bound every `updated_at` of the deck from above and below,
so the age fed to rule 4 lies between `0` and the span. -/
theorem finalWeights_rule4_val (s : Int) (cards : List Card) (w : Weights)
    (hnd : (List.map Card.id cards).Nodup)
    (hw : finalWeights s cards = some w)
    (c : Card) (hc : c ∈ cards) (h1 : ¬rule1 s c) (h2 : c.rating ≠ 0) :
    ∃ cy cl : Card, cy ∈ cards ∧ cl ∈ cards ∧
      (∀ d ∈ cards, d.updated_at ≤ cy.updated_at) ∧
      (∀ d ∈ cards, cl.updated_at ≤ d.updated_at) ∧
      wGet w c.id = some (c.rating +
        weightByLastSeen (cy.updated_at - c.updated_at)
          (cy.updated_at - cl.updated_at)) := by
  obtain ⟨pr, hpr, hfst⟩ := Option.map_eq_some'.1 hw
  obtain ⟨c0, rest, hsort, hw1, _⟩ := scheduleParts_some s cards pr hpr
  have hperm : (c0 :: rest).Perm cards := hsort ▸ List.perm_insertionSort updGe cards
  have hsorted : List.Sorted updGe (c0 :: rest) :=
    hsort ▸ List.sorted_insertionSort updGe cards
  have hcs : c ∈ c0 :: rest := hperm.mem_iff.2 hc
  have hnd2 : (List.map Card.id (c0 :: rest)).Nodup :=
    (hperm.map Card.id).nodup_iff.2 hnd
  obtain ⟨l1, l2, hsplit⟩ := List.append_of_mem hcs
  have hids := ids_ne_of_nodup_split l1 l2 c (by rw [← hsplit]; exact hnd2)
  set cl := (c0 :: rest).getLast (List.cons_ne_nil c0 rest) with hcl
  refine ⟨c0, cl, hperm.mem_iff.1 (List.mem_cons_self c0 rest),
    hperm.mem_iff.1 (List.getLast_mem _), ?_, ?_, ?_⟩
  · intro d hd
    exact sorted_head_max c0 rest hsorted d (hperm.mem_iff.2 hd)
  · intro d hd
    exact sorted_getLast_min (c0 :: rest) (List.cons_ne_nil c0 rest) hsorted d
      (hperm.mem_iff.2 hd)
  · have h12 : wGet (applyRules12 s ([] : Weights) (l1 ++ c :: l2)) c.id = none := by
      apply applyRules12_get_none
      · rfl
      · intro d hd hdk
        have hdc : d = c := by
          by_contra hne
          rcases List.mem_append.1 hd with hmem | hmem
          · exact hids.1 d hmem hdk
          · rcases List.mem_cons.1 hmem with he | hmem2
            · exact hne he
            · exact hids.2 d hmem2 hdk
        rw [hdc]
        exact ⟨h1, h2⟩
    rw [← hfst, hw1, hsplit, applyRules34_append]
    set wacc := applyRules34 c0.updated_at (c0.updated_at - cl.updated_at)
      (applyRules12 s ([] : Weights) (l1 ++ c :: l2)) l1 with hwacc
    have hl1 : wGet wacc c.id = none := by
      rw [hwacc, applyRules34_get_of_ne _ _ _ _ _ hids.1, h12]
    have hcontains : ¬(wContains wacc c.id = true) := by
      rw [wContains_iff_isSome, hl1]
      simp
    simp only [applyRules34]
    rw [if_neg hcontains]
    have hval : wGet (wInsert (if wLen wacc < 9 then wInsert wacc c.id 100000 else wacc)
        c.id (c.rating + weightByLastSeen (c0.updated_at - c.updated_at)
          (c0.updated_at - cl.updated_at))) c.id
        = some (c.rating + weightByLastSeen (c0.updated_at - c.updated_at)
          (c0.updated_at - cl.updated_at)) := by
      by_cases h9 : wLen wacc < 9 <;> simp [h9, wGet_wInsert]
    rw [applyRules34_get_of_isSome _ _ _ _ _ (by rw [hval]; rfl), hval]

/-! ## The claims -/

/-- Claim C1: the claim says a card id, once weighted, is never re-weighted
by a later rule, and in particular a fill-quota weight of 100,000 survives
as the final weight.  The code contradicts this: the rule-3 insert is
followed, in the same loop iteration and without a `continue`, by the
rule-4 insert, which replaces it.  On a two-card deck where neither card
matches rules 1 or 2, both cards are weighted 100,000 by rule 3 (2 < 9
distinct ids weighted) and both end with their rule-4 weights 2 and 7
instead. -/
theorem c1_fill_quota_overwritten :
    ∃ w, finalWeights 10 [mkCard 1 2 2, mkCard 2 3 0] = some w
      ∧ wGet w 1 = some 2 ∧ wGet w 2 = some 7
      ∧ wGet w 1 ≠ some 100000 ∧ wGet w 2 ≠ some 100000 :=
  ⟨[(1, 2), (2, 7)], by decide, by decide, by decide, by decide, by decide⟩

/-- Claim C2: for every non-empty card list the scheduling block succeeds,
the ordered working set is a permutation of the input (the two stable
sorts permute and the weighting loops never touch the list), and the
session-start block stores exactly that ordered set under the deck id. -/
theorem c2_computeOrder_perm (s : Int) (cards : List Card) (hne : cards ≠ []) :
    ∃ ordered, computeOrder s cards = some ordered ∧ ordered.Perm cards ∧
      ∀ (deck : Deck) (cache0 : Cache) (did : Int), deck.seen_at = s →
        sessionStart (DbResult.ok [deck]) (DbResult.ok cards) cache0 did
          = some (cacheInsert cache0 did ordered) := by
  have hperm : (List.insertionSort updGe cards).Perm cards :=
    List.perm_insertionSort updGe cards
  cases hs : List.insertionSort updGe cards with
  | nil =>
      rw [hs] at hperm
      exact absurd hperm.symm.eq_nil hne
  | cons c0 rest =>
      rw [hs] at hperm
      have hco : computeOrder s cards = some (List.insertionSort
          (weightGe (applyRules34 c0.updated_at
            (c0.updated_at - ((c0 :: rest).getLast (List.cons_ne_nil c0 rest)).updated_at)
            (applyRules12 s ([] : Weights) (c0 :: rest)) (c0 :: rest))) (c0 :: rest)) := by
        simp only [computeOrder, scheduleParts]
        rw [hs]
        rfl
      refine ⟨_, hco, (List.perm_insertionSort _ _).trans hperm, ?_⟩
      intro deck cache0 did hds
      simp [sessionStart, hds, hco]

/-- Claim C2 witness at a concrete one-card deck. -/
theorem c2_computeOrder_perm_witness :
    ∃ ordered, computeOrder 0 [mkCard 1 0 0] = some ordered
      ∧ ordered.Perm [mkCard 1 0 0] ∧
      ∀ (deck : Deck) (cache0 : Cache) (did : Int), deck.seen_at = 0 →
        sessionStart (DbResult.ok [deck]) (DbResult.ok [mkCard 1 0 0]) cache0 did
          = some (cacheInsert cache0 did ordered) :=
  c2_computeOrder_perm 0 [mkCard 1 0 0] (by decide)

/-- Claim C3 counterexample: the claim says the handler never raises a
fatal error and returns the sentinel when the deck has zero cards.  At a
session start (position 0, side from) with an existing deck whose card
fetch returns an empty list, the handler panics on the out-of-bounds
indexing inside the scheduling block instead. -/
theorem c3_zero_cards_panics :
    page_action "u" (DbResult.ok [mkDeck 1 0]) (DbResult.ok []) [] 1 0 "from" 1
      = HandlerOutcome.panic := by decide

/-- Claim C3 amended: outside the session-start branch (position nonzero or
side other than from) the handler never panics, and it returns the fixed
sentinel template both when the deck has no cache entry and when the
position is out of range; a failed card fetch at session start also
degrades without a panic. -/
theorem c3_degrades_outside_session_start
    (appUuid : String) (dr : DbResult (List Deck)) (cr : DbResult (List Card))
    (cache : Cache) (did : Int) (pos : Nat) (side : String) (rnd : Nat) :
    (¬(pos = 0 ∧ side = "from") →
      page_action appUuid dr cr cache did pos side rnd ≠ HandlerOutcome.panic)
    ∧ (¬(pos = 0 ∧ side = "from") → cacheGet cache did = none →
        page_action appUuid dr cr cache did pos side rnd
          = HandlerOutcome.page (endTemplate did appUuid) cache)
    ∧ (∀ l, ¬(pos = 0 ∧ side = "from") → cacheGet cache did = some l →
        l[pos]? = none →
        page_action appUuid dr cr cache did pos side rnd
          = HandlerOutcome.page (endTemplate did appUuid) cache)
    ∧ (∀ msg, cr = DbResult.err msg →
        page_action appUuid dr cr cache did pos side rnd ≠ HandlerOutcome.panic) := by
  refine ⟨?_, ?_, ?_, ?_⟩
  · intro hns
    simp only [page_action, if_neg hns]
    cases hg : cacheGet cache did with
    | none => simp [hg]
    | some l =>
        cases hp : l[pos]? with
        | none => simp [hg, hp]
        | some card => simp [hg, hp]
  · intro hns hg
    simp [page_action, if_neg hns, hg]
  · intro l hns hg hp
    simp [page_action, if_neg hns, hg, hp]
  · intro msg hcr
    subst hcr
    by_cases hss : pos = 0 ∧ side = "from"
    · simp only [page_action, if_pos hss, sessionStart]
      cases hg : cacheGet cache did with
      | none => simp [hg]
      | some l =>
          cases hp : l[pos]? with
          | none => simp [hg, hp]
          | some card => simp [hg, hp]
    · simp only [page_action, if_neg hss]
      cases hg : cacheGet cache did with
      | none => simp [hg]
      | some l =>
          cases hp : l[pos]? with
          | none => simp [hg, hp]
          | some card => simp [hg, hp]

/-- Claim C3 amended witness at concrete requests. -/
theorem c3_degrades_witness :
    page_action "u" (DbResult.ok []) (DbResult.ok []) [] 1 3 "from" 0
      ≠ HandlerOutcome.panic
    ∧ page_action "u" (DbResult.ok []) (DbResult.ok []) [(1, [theEndCard])] 1 5 "x" 0
        = HandlerOutcome.page (endTemplate 1 "u") [(1, [theEndCard])]
    ∧ page_action "u" (DbResult.ok []) (DbResult.err "down") [] 1 0 "from" 0
        ≠ HandlerOutcome.panic :=
  ⟨(c3_degrades_outside_session_start "u" (DbResult.ok []) (DbResult.ok []) [] 1 3
      "from" 0).1 (by decide),
   (c3_degrades_outside_session_start "u" (DbResult.ok []) (DbResult.ok [])
      [(1, [theEndCard])] 1 5 "x" 0).2.2.1 [theEndCard] (by decide) (by decide)
      (by decide),
   (c3_degrades_outside_session_start "u" (DbResult.ok []) (DbResult.err "down") [] 1 0
      "from" 0).2.2.2 "down" rfl⟩

/-- Claim C4 counterexample: the claim says an empty fetched card list makes
the scheduling step complete with an empty ordered list.  It does not: the
block indexes `cards[0]` on the empty list and panics, modelled by `none`. -/
theorem c4_empty_not_ok : computeOrder 0 ([] : List Card) ≠ some [] := by decide

/-- Claim C4 amended: an empty card list makes the scheduling step fail on
the out-of-bounds index (it never produces an ordered list), and a position
lookup for a deck with no cache entry outside the session-start branch
returns the terminal sentinel. -/
theorem c4_empty_panics :
    (∀ s : Int, computeOrder s [] = none)
    ∧ ∀ (appUuid : String) (dr : DbResult (List Deck)) (cr : DbResult (List Card))
        (cache : Cache) (did : Int) (pos : Nat) (side : String) (rnd : Nat),
        ¬(pos = 0 ∧ side = "from") → cacheGet cache did = none →
        page_action appUuid dr cr cache did pos side rnd
          = HandlerOutcome.page (endTemplate did appUuid) cache := by
  constructor
  · intro s
    rfl
  · intro appUuid dr cr cache did pos side rnd hns hg
    simp [page_action, if_neg hns, hg]

/-- Claim C4 amended witness at a concrete request. -/
theorem c4_empty_panics_witness :
    computeOrder 7 [] = none
    ∧ page_action "u" (DbResult.ok []) (DbResult.ok []) [] 1 2 "from" 0
        = HandlerOutcome.page (endTemplate 1 "u") [] :=
  ⟨c4_empty_panics.1 7,
   c4_empty_panics.2 "u" (DbResult.ok []) (DbResult.ok []) [] 1 2 "from" 0
     (by decide) (by decide)⟩

/-- Claim C5: the spec scenario expects final order [B, C, A] for ratings
[0, 4, 2] with timestamps t0 < t1 < t2 and deckSeenAt = t0 (cards A, B, C
as mkCard 1 0 t0, mkCard 2 4 t2, mkCard 3 2 t1 with t0 = 0, t1 = 1,
t2 = 2).  The code produces [B, A, C]: the fill-quota weight of C is
overwritten by its rule-4 weight 4, which sorts below the 100,000 of A. -/
theorem c5_scenario_order :
    computeOrder 0 [mkCard 1 0 0, mkCard 2 4 2, mkCard 3 2 1]
      = some [mkCard 2 4 2, mkCard 1 0 0, mkCard 3 2 1] := by decide

/-- Claim C6: with unique card ids and ratings inside the data-model range
0..4, a card weighted 1,000,000 by rule 1 (rating 4 and updated after the
deck was last seen) appears strictly before every card weighted by rule 4.
Under the code every card outside rules 1 and 2 takes its final weight
from rule 4 (a transient rule-3 weight is overwritten in the same
iteration), so this covers in particular every card weighted by none of
rules 1, 2 and 3, as the claim states. -/
theorem c6_rule1_sorts_first (s : Int) (cards : List Card) (w : Weights)
    (ordered : List Card)
    (hnd : (List.map Card.id cards).Nodup)
    (hsp : scheduleParts s cards = some (w, ordered))
    (i j : Fin ordered.length)
    (hi : rule1 s (ordered.get i))
    (hj1 : ¬rule1 s (ordered.get j))
    (hj2 : (ordered.get j).rating ≠ 0)
    (hj3 : 0 ≤ (ordered.get j).rating)
    (hj4 : (ordered.get j).rating ≤ 4) :
    i < j := by
  have hw : finalWeights s cards = some w := by
    simp [finalWeights, hsp]
  obtain ⟨c0, rest, hsort, hw1, hsnd⟩ := scheduleParts_some s cards (w, ordered) hsp
  have hordeq : ordered = List.insertionSort (weightGe w) (c0 :: rest) := hsnd
  have hperm1 : (c0 :: rest).Perm cards := hsort ▸ List.perm_insertionSort updGe cards
  have hperm2 : ordered.Perm cards := by
    rw [hordeq]
    exact (List.perm_insertionSort _ _).trans hperm1
  have hmemi : ordered.get i ∈ cards := hperm2.mem_iff.1 (ordered.get_mem i.1 i.2)
  have hmemj : ordered.get j ∈ cards := hperm2.mem_iff.1 (ordered.get_mem j.1 j.2)
  have hwi := finalWeights_rule1_val s cards w hnd hw _ hmemi hi
  obtain ⟨cy, cl, hcy, hcl, hmax, hmin, hwj⟩ :=
    finalWeights_rule4_val s cards w hnd hw _ hmemj hj1 hj2
  have hage0 : 0 ≤ cy.updated_at - (ordered.get j).updated_at := by
    have := hmax _ hmemj
    omega
  have hagesp : cy.updated_at - (ordered.get j).updated_at
      ≤ cy.updated_at - cl.updated_at := by
    have := hmin _ hmemj
    omega
  obtain ⟨hb0, hb4⟩ := weightByLastSeen_bounds _ _ hage0 hagesp
  have hsorted : List.Pairwise (weightGe w) ordered := by
    rw [hordeq]
    exact List.sorted_insertionSort (weightGe w) (c0 :: rest)
  by_contra hij
  rcases lt_or_eq_of_le (le_of_not_lt hij) with hji | hji
  · have hrel := List.pairwise_iff_get.1 hsorted j i hji
    have hle : optLe (wGet w (ordered.get i).id) (wGet w (ordered.get j).id) := hrel
    rw [hwi, hwj] at hle
    have hcontr : (1000000 : Int) ≤ (ordered.get j).rating +
        weightByLastSeen (cy.updated_at - (ordered.get j).updated_at)
          (cy.updated_at - cl.updated_at) := hle
    omega
  · rw [hji] at hj1
    exact hj1 hi

/-- Claim C6 witness: a rule-1 card (id 1, rating 4, updated at 5, deck
seen at 0) is placed before a rule-4 card (id 2, rating 2, updated at 3,
final weight 6). -/
theorem c6_rule1_sorts_first_witness :
    (⟨0, by decide⟩ : Fin ([mkCard 1 4 5, mkCard 2 2 3] : List Card).length)
      < ⟨1, by decide⟩ :=
  c6_rule1_sorts_first 0 [mkCard 1 4 5, mkCard 2 2 3]
    [(1, 1000000), (2, 6)] [mkCard 1 4 5, mkCard 2 2 3]
    (by decide) (by decide) ⟨0, by decide⟩ ⟨1, by decide⟩
    (by decide) (by decide) (by decide) (by decide) (by decide)

/-- Claim C7: when every card shares one `updated_at` the span is zero and
the rule-4 pipeline computes `(0 as f32 / 0 as f32 * 4f32).ceil() as i32`:
the division yields NaN rather than faulting, and the saturating cast
maps it to 0, so the final weight of every card reached by rule 4 is
exactly its rating. -/
theorem c7_zero_span_weight_is_rating (s t : Int) (cards : List Card) (w : Weights)
    (hall : ∀ d ∈ cards, d.updated_at = t)
    (hnd : (List.map Card.id cards).Nodup)
    (hw : finalWeights s cards = some w)
    (c : Card) (hc : c ∈ cards) (h1 : ¬rule1 s c) (h2 : c.rating ≠ 0) :
    wGet w c.id = some c.rating := by
  obtain ⟨cy, cl, hcy, hcl, _, _, hval⟩ :=
    finalWeights_rule4_val s cards w hnd hw c hc h1 h2
  rw [hall cy hcy, hall cl hcl, hall c hc, sub_self] at hval
  have hz : weightByLastSeen 0 0 = 0 := by decide
  rw [hz, add_zero] at hval
  exact hval

/-- Claim C7 witness: two cards with equal timestamps and ratings 3 and 2
end with final weights exactly 3 and 2. -/
theorem c7_zero_span_witness : wGet [(1, 3), (2, 2)] 1 = some 3 :=
  c7_zero_span_weight_is_rating 10 7 [mkCard 1 3 7, mkCard 2 2 7] [(1, 3), (2, 2)]
    (by decide) (by decide) (by decide) (mkCard 1 3 7) (by decide) (by decide)
    (by decide)

/-- Claim C8: at session start the deck row is read before `seen_at = now`
is persisted, so the scheduler compares each card against the seen_at of
the previous session while the store ends up holding the new timestamp. -/
theorem c8_pre_update_seen_at (st : Store) (d : Deck) (now : Int) (cache0 : Cache)
    (did : Int) (ordered : List Card)
    (hd : st.deckRow = some d)
    (hc : computeOrder d.seen_at st.cards = some ordered) :
    (sessionStartLive st now cache0 did).1 = some (cacheInsert cache0 did ordered)
    ∧ (sessionStartLive st now cache0 did).2.deckRow
        = some { d with seen_at := now } := by
  constructor
  · simp [sessionStartLive, readDeckOp, readCardsOp, updateSeenAtOp, sessionStart, hd, hc]
  · simp [sessionStartLive, updateSeenAtOp, hd]

/-- Claim C8 witness: a concrete store with seen_at 0 updated to 99 while
the scheduling ran against seen_at 0. -/
theorem c8_pre_update_seen_at_witness :
    (sessionStartLive ⟨some (mkDeck 1 0), [mkCard 1 0 0]⟩ 99 [] 1).1
      = some (cacheInsert [] 1 [mkCard 1 0 0])
    ∧ (sessionStartLive ⟨some (mkDeck 1 0), [mkCard 1 0 0]⟩ 99 [] 1).2.deckRow
      = some { mkDeck 1 0 with seen_at := 99 } :=
  c8_pre_update_seen_at ⟨some (mkDeck 1 0), [mkCard 1 0 0]⟩ (mkDeck 1 0) 99 [] 1
    [mkCard 1 0 0] rfl (by decide)

/-- Claim C9 counterexample: the claim says the side mapping assigns equal
probability to the two sides.  The draw is uniform over 0, 1 and 2, and
the mapping sends two of the three draws to the from side and one to the
to side, so the counts differ. -/
theorem c9_side_not_uniform :
    ¬((Finset.filter (fun n => randToSide n = "from") (Finset.range 3)).card
      = (Finset.filter (fun n => randToSide n = "to") (Finset.range 3)).card) := by
  decide

/-- Claim C9 amended: the displayed side is from with probability 2/3 and
to with probability 1/3: of the three equiprobable draws, 1 and 2 map to
from and only 0 maps to to. -/
theorem c9_side_two_thirds_from :
    (Finset.filter (fun n => randToSide n = "from") (Finset.range 3)).card = 2
    ∧ (Finset.filter (fun n => randToSide n = "to") (Finset.range 3)).card = 1 := by
  decide

/-- Claim C10: the session-position page performs no bearer-token check:
two requests identical up to the uuid credential produce identical
outcomes (the handler reads no query parameter), whereas the JSON API
handler `get_users` rejects a missing or mismatched uuid with 401, with a
result independent of the store. -/
theorem c10_page_ignores_uuid_api_checks :
    (∀ (u1 u2 : Option String) (appUuid : String) (dr : DbResult (List Deck))
        (cr : DbResult (List Card)) (cache : Cache) (did : Int) (pos : Nat)
        (side : String) (rnd : Nat),
        page_action_request u1 appUuid dr cr cache did pos side rnd
          = page_action_request u2 appUuid dr cr cache did pos side rnd)
    ∧ (∀ (appUser : Option User) (appUuid : String) (uuid : Option String)
        (db1 db2 : DbResult (List User)),
        (uuid = none ∨ uuid ≠ some appUuid) →
        get_users appUser appUuid uuid db1 = ApiOutcome.unauthorized
        ∧ get_users appUser appUuid uuid db1 = get_users appUser appUuid uuid db2) := by
  constructor
  · intro u1 u2 appUuid dr cr cache did pos side rnd
    rfl
  · intro appUser appUuid uuid db1 db2 h
    have e1 : get_users appUser appUuid uuid db1 = ApiOutcome.unauthorized := by
      unfold get_users
      rw [if_pos (Or.inr h)]
    have e2 : get_users appUser appUuid uuid db2 = ApiOutcome.unauthorized := by
      unfold get_users
      rw [if_pos (Or.inr h)]
    exact ⟨e1, e1.trans e2.symm⟩

/-- Claim C10 witness: concrete requests differing only in the credential,
and a concrete 401 for a missing uuid. -/
theorem c10_witness :
    page_action_request (some "z") "u" (DbResult.ok []) (DbResult.ok []) [] 1 1 "to" 0
      = page_action_request none "u" (DbResult.ok []) (DbResult.ok []) [] 1 1 "to" 0
    ∧ get_users none "u" none (DbResult.ok []) = ApiOutcome.unauthorized :=
  ⟨c10_page_ignores_uuid_api_checks.1 (some "z") none "u" (DbResult.ok [])
      (DbResult.ok []) [] 1 1 "to" 0,
   (c10_page_ignores_uuid_api_checks.2 none "u" none (DbResult.ok [])
      (DbResult.ok []) (Or.inl rfl)).1⟩

end CardsBackend
